import Mathlib

/-!
# Verification of the text-preprocessing pipeline of `day-3/wordembeddings.ipynb`

The notebook's preprocessing cell turns one raw corpus string into a list of
sentences, each a list of word tokens.  We embed strings as `List Char` and
translate each Python string operation used by the cell:

* `raw[1114:]`                     → `List.drop`
* `text.replace('Mrs.', 'Mrs')` …  → `replaceSub` (leftmost, non-overlapping)
* `text.replace('\n', ' ')` …      → `replaceChar` (single-character map)
* `re.split(r'[.?!]', text)`       → `splitDelims`
* the punctuation/special filter   → `List.filter keepChar`
* `sent.lower()`                   → `List.map Char.toLower` (ASCII case map,
                                      matching the corpus-relevant behaviour)
* `sent.strip()`                   → `pyStrip`
* `sent.split()`                   → `splitWs` (split on whitespace runs,
                                      dropping empty pieces)

Whitespace is modelled by the six ASCII whitespace characters recognised by
Python's `str.split`/`str.strip`.
-/

/-- The whitespace characters recognised by `str.split()` / `str.strip()`
(ASCII part: space, tab, newline, vertical tab, form feed, carriage return). -/
def isSpaceChar (c : Char) : Bool :=
  c = ' ' || c = '\t' || c = '\n' || c = '\x0b' || c = '\x0c' || c = '\r'

/-- `string.punctuation` from Python's standard library: the 32 ASCII
punctuation characters. -/
def punctuation : List Char :=
  "!\"#$%&\x27()*+,-./:;<=>?@[\\]^_\x60\x7b|\x7d~".data

/-- The notebook's `special = ['“', '”']`: the extra characters removed
besides `string.punctuation`. -/
def special : List Char := ['“', '”']

/-- The sentence-boundary character class of `re.split(r'[.?!]', text)`. -/
def isDelim (c : Char) : Bool :=
  c = '.' || c = '?' || c = '!'

/-- Fuel-driven worker for `replaceSub`.  One unit of fuel is spent per
character position, which suffices because every step consumes at least one
input character. -/
def replaceSubGo (pat rep : List Char) : Nat → List Char → List Char
  | _, [] => []
  | 0, l => l
  | n + 1, c :: cs =>
    if pat.isPrefixOf (c :: cs) then
      rep ++ replaceSubGo pat rep n (cs.drop (pat.length - 1))
    else
      c :: replaceSubGo pat rep n cs

/-- Python's `s.replace(pat, rep)` for a non-empty pattern `pat`: scan left to
right, replacing each leftmost non-overlapping occurrence of `pat` by `rep`. -/
def replaceSub (pat rep l : List Char) : List Char :=
  replaceSubGo pat rep l.length l

/-- Python's `s.replace(c, r)` for single characters, as used for the
line-break normalisation `text.replace('\n', ' ')` and
`text.replace('\r', ' ')`. -/
def replaceChar (c r : Char) (l : List Char) : List Char :=
  l.map (fun x => if x = c then r else x)

/-- The abbreviation patterns of the notebook. -/
def mrsDot : List Char := "Mrs.".data

/-- Replacement for `mrsDot`. -/
def mrsRep : List Char := "Mrs".data

/-- The second abbreviation pattern of the notebook. -/
def mrDot : List Char := "Mr.".data

/-- Replacement for `mrDot`. -/
def mrRep : List Char := "Mr".data

/-- The notebook's abbreviation normalisation:
`text.replace('Mrs.', 'Mrs')` followed by `text.replace('Mr.', 'Mr')`. -/
def abbrevNorm (l : List Char) : List Char :=
  replaceSub mrDot mrRep (replaceSub mrsDot mrsRep l)

/-- `re.split(r'[.?!]', text)`: split at every delimiter character, keeping
empty pieces, so `n` delimiters always yield `n + 1` pieces. -/
def splitDelims : List Char → List (List Char)
  | [] => [[]]
  | c :: cs =>
    if isDelim c then
      [] :: splitDelims cs
    else
      match splitDelims cs with
      | [] => [[c]]
      | s :: ss => (c :: s) :: ss

/-- The character filter of the notebook's comprehension:
`ch not in punctuation and ch not in special`. -/
def keepChar (c : Char) : Bool :=
  !(punctuation.contains c) && !(special.contains c)

/-- Python's `sent.strip()`: remove leading and trailing whitespace. -/
def pyStrip (l : List Char) : List Char :=
  ((l.dropWhile isSpaceChar).reverse.dropWhile isSpaceChar).reverse

/-- Accumulator-based worker for `splitWs`; `acc` holds the reversed current
word. -/
def splitWsAux : List Char → List Char → List (List Char)
  | [], acc => if acc = [] then [] else [acc.reverse]
  | c :: cs, acc =>
    if isSpaceChar c then
      if acc = [] then splitWsAux cs [] else acc.reverse :: splitWsAux cs []
    else
      splitWsAux cs (c :: acc)

/-- Python's `sent.split()`: split on runs of whitespace, discarding empty
pieces. -/
def splitWs (l : List Char) : List (List Char) :=
  splitWsAux l []

/-- Cleaning of one raw sentence: punctuation/special filtering, lowercasing,
stripping and tokenisation, exactly in the notebook's order. -/
def cleanSentence (sent : List Char) : List (List Char) :=
  splitWs (pyStrip ((sent.filter keepChar).map Char.toLower))

/-- The whole preprocessing cell applied to the post-header text:
abbreviation normalisation, line-break replacement, sentence segmentation and
per-sentence cleaning. -/
def pipelineText (text : List Char) : List (List (List Char)) :=
  (splitDelims (replaceChar '\r' ' ' (replaceChar '\n' ' '
    (abbrevNorm text)))).map cleanSentence

/-- The normalised text on which sentence segmentation runs (the value of the
Python variable `text` just before `re.split`). -/
def normalizedText (offset : Nat) (raw : List Char) : List Char :=
  replaceChar '\r' ' ' (replaceChar '\n' ' ' (abbrevNorm (raw.drop offset)))

/-- The notebook's `list_of_list`, with the header-skip offset exposed as a
parameter (`§4.2` step 1 of the spec); the notebook itself uses
`raw[1114:]`, i.e. `list_of_list 1114`. -/
def list_of_list (offset : Nat) (raw : List Char) : List (List (List Char)) :=
  pipelineText (raw.drop offset)

/-- The notebook's loader loop `raw = ''; for fname in fnames: raw += t`,
as a fold over the decoded contents of the matched files. -/
def read_raw (contents : List (List Char)) : List Char :=
  contents.foldl (fun acc t => acc ++ t) []

/-- `hasSubstr pat l` is true when `pat` occurs as a contiguous substring of
`l` (Python's `pat in l`). -/
def hasSubstr (pat : List Char) : List Char → Bool
  | [] => pat.isEmpty
  | c :: cs => pat.isPrefixOf (c :: cs) || hasSubstr pat cs

/-- `noAdjDelims l` holds when no two sentence delimiters are adjacent in
`l`. -/
def noAdjDelims : List Char → Bool
  | [] => true
  | [_] => true
  | a :: b :: rest => !(isDelim a && isDelim b) && noAdjDelims (b :: rest)

/-- `isUpperAscii c` holds when `c` is an ASCII uppercase letter; "lowercase"
in the token invariant means that no such character remains (the ASCII range
on which the pipeline's `Char.toLower` acts). -/
def isUpperAscii (c : Char) : Bool :=
  decide (65 ≤ c.toNat ∧ c.toNat ≤ 90)

/-- The token invariant of the spec's data model: a token is non-empty,
lowercase (no ASCII uppercase letter remains) and free of the configured
punctuation and special characters. -/
def cleanToken (t : List Char) : Bool :=
  !(t.isEmpty) && t.all (fun c =>
    !(punctuation.contains c) && !(special.contains c) && !(isUpperAscii c))

/-- Concatenation of tokens with single-space separators, the joining side of
the spec's round-trip property. -/
def joinTokens : List (List Char) → List Char
  | [] => []
  | [t] => t
  | t :: ts => t ++ ' ' :: joinTokens ts

/-- All tokens of all sentences of a tokenised corpus, in order. -/
def allTokens (corpus : List (List (List Char))) : List (List Char) :=
  corpus.flatten

/-- Modelled from the spec: the failure condition of §4.3 and §7 for vector
lookup of a token absent from the trained vocabulary.  The trainer itself
(gensim's `Word2Vec` / `model.wv`) is an external collaborator not present in
this repository. -/
inductive LookupError where
  | NotInVocabulary
deriving DecidableEq

/-- Modelled from the spec: the trained embedding model of §4.3, reduced to
what the lookup contract needs — a finite vocabulary table from tokens to
dense vectors (vector entries as rationals in place of floats). -/
structure EmbeddingModel where
  vocab : List (List Char × List ℚ)

/-- Association-list lookup of a token in the vocabulary table. -/
def lookupTok (t : List Char) : List (List Char × List ℚ) → Option (List ℚ)
  | [] => none
  | (k, v) :: rest => if t = k then some v else lookupTok t rest

/-- Modelled from the spec: `vector_of` / `model.wv.get_vector`, which
"fails with a NotInVocabulary condition if token is absent" (§4.3), never
substituting a default vector. -/
def vector_of (m : EmbeddingModel) (t : List Char) :
    Except LookupError (List ℚ) :=
  match lookupTok t m.vocab with
  | some v => Except.ok v
  | none => Except.error LookupError.NotInVocabulary

/-- The example input of the spec's end-to-end example. -/
def exampleRaw : List Char := "Mrs. Jones met Mr. Smith. They talked!".data

/-- The expected output of the spec's end-to-end example. -/
def exampleOut : List (List (List Char)) :=
  [["mrs".data, "jones".data, "met".data, "mr".data, "smith".data],
   ["they".data, "talked".data],
   []]

/-- An input string of length at most 1114, used to instantiate the
header-skip theorem. -/
def shortRaw : List Char := "hello".data

/-- The typographic right single quotation mark, U+2019. -/
def rightSingleQuote : Char := '’'

/-- A raw input containing a typographic single quote. -/
def c10Raw : List Char := "don’t".data

/-- The counterexample input for the idempotence claim. -/
def c4Bad : List Char := "Mrs..".data

/-- The concrete input instantiating the amended idempotence theorem. -/
def c4Good : List Char := "Mrs. Jones met Mr. Smith.".data

/-- The concrete input instantiating the sentence-count theorem. -/
def c6Input : List Char := "One. Two? Three!".data

/-- A one-entry vocabulary instantiating the lookup theorem. -/
def c8Model : EmbeddingModel :=
  EmbeddingModel.mk [("woman".data, [(1 : ℚ), 0, 0])]

/-- A token absent from `c8Model`'s vocabulary. -/
def c8Tok : List Char := "zebra".data

/-- Claim C1: the full pipeline with header skip 0, on the spec's example
string, yields exactly the three expected sentences, including the trailing
empty sentence. -/
theorem c1_end_to_end_example :
    list_of_list 0 exampleRaw = exampleOut := by
  decide

/-- Claim C2, counterexample: on the empty string the pipeline does not
return the empty sequence of sentences (it returns one empty sentence,
because `re.split` on the empty string yields `['']`). -/
theorem c2_counterexample_empty_string :
    list_of_list 0 [] ≠ ([] : List (List (List Char))) := by
  decide

/-- Claim C2, amended: the normaliser is a total function by construction,
and on the empty string it yields a sequence containing exactly one empty
sentence (for every header-skip offset). -/
theorem c2_amended_empty_string_one_empty_sentence (offset : Nat) :
    list_of_list offset [] = [[]] := by
  unfold list_of_list
  rw [List.drop_nil]
  decide

/-- Claim C9: the notebook hard-codes the header skip `raw[1114:]`, so every
raw corpus of length at most 1114 is discarded entirely and the output is a
single empty sentence, regardless of content. -/
theorem c9_short_input_all_discarded (raw : List Char) (h : raw.length ≤ 1114) :
    list_of_list 1114 raw = [[]] := by
  unfold list_of_list
  rw [List.drop_eq_nil_of_le h]
  decide

/-- Witness for C9 at the concrete input `shortRaw`. -/
theorem c9_short_input_all_discarded_witness :
    shortRaw.length ≤ 1114 ∧ list_of_list 1114 shortRaw = [[]] :=
  ⟨by decide, c9_short_input_all_discarded shortRaw (by decide)⟩

/-- Claim C10: the special-character set holds only the typographic double
quotes, and the right single quote U+2019 is in neither `punctuation` nor
`special`, so some input makes the normaliser emit a token containing it. -/
theorem c10_single_quote_survives :
    special = ['“', '”'] ∧
    punctuation.contains rightSingleQuote = false ∧
    special.contains rightSingleQuote = false ∧
    ∃ raw : List Char, ∃ sent ∈ list_of_list 0 raw, ∃ tok ∈ sent,
      rightSingleQuote ∈ tok := by
  refine ⟨rfl, by decide, by decide, c10Raw, ["don’t".data], by decide,
    "don’t".data, by decide, by decide⟩

/-- Claim C7, counterexample: with zero matching files the loader yields the
empty raw corpus, but the pipeline on it is not the empty sequence of
sentences (it holds one empty sentence). -/
theorem c7_counterexample_empty_directory :
    list_of_list 1114 (read_raw []) ≠ ([] : List (List (List Char))) := by
  decide

/-- Claim C7, amended: with zero matching files the loader yields the empty
raw corpus, and the pipeline on it runs without failure, producing a
one-element corpus holding a single empty sentence. -/
theorem c7_amended_empty_directory :
    read_raw [] = [] ∧ list_of_list 1114 (read_raw []) = [[]] :=
  ⟨rfl, by decide⟩

/-- A string free of occurrences of the pattern is left unchanged by the
worker of `replaceSub`, for any amount of fuel. -/
theorem replaceSubGo_eq_self (pat rep : List Char) :
    ∀ (n : Nat) (l : List Char), hasSubstr pat l = false →
      replaceSubGo pat rep n l = l := by
  intro n
  induction n with
  | zero =>
    intro l _
    cases l <;> rfl
  | succ n ih =>
    intro l h
    cases l with
    | nil => rfl
    | cons c cs =>
      rw [hasSubstr, Bool.or_eq_false_iff] at h
      simp only [replaceSubGo, h.1, Bool.false_eq_true, if_false]
      rw [ih cs h.2]

/-- A string free of occurrences of the pattern is a fixed point of
`replaceSub`. -/
theorem replaceSub_eq_self (pat rep l : List Char)
    (h : hasSubstr pat l = false) : replaceSub pat rep l = l :=
  replaceSubGo_eq_self pat rep l.length l h

/-- Claim C4, counterexample: on `"Mrs.."` one application of the two
replacements gives `"Mrs."`, and a second application shortens it further to
`"Mrs"`, so abbreviation normalisation is not idempotent. -/
theorem c4_counterexample_not_idempotent :
    abbrevNorm (abbrevNorm c4Bad) ≠ abbrevNorm c4Bad := by
  decide

/-- Claim C4, amended: abbreviation normalisation is idempotent on every
input whose once-normalised form retains no occurrence of `"Mrs."` or
`"Mr."` (in general a second application can differ, e.g. on `"Mrs.."`). -/
theorem c4_amended_idempotent_without_residue (t : List Char)
    (h1 : hasSubstr mrsDot (abbrevNorm t) = false)
    (h2 : hasSubstr mrDot (abbrevNorm t) = false) :
    abbrevNorm (abbrevNorm t) = abbrevNorm t := by
  show replaceSub mrDot mrRep (replaceSub mrsDot mrsRep (abbrevNorm t)) =
    abbrevNorm t
  rw [replaceSub_eq_self _ _ _ h1, replaceSub_eq_self _ _ _ h2]

/-- Witness for the amended C4 at the concrete input `c4Good`. -/
theorem c4_amended_idempotent_without_residue_witness :
    hasSubstr mrsDot (abbrevNorm c4Good) = false ∧
    hasSubstr mrDot (abbrevNorm c4Good) = false ∧
    abbrevNorm (abbrevNorm c4Good) = abbrevNorm c4Good :=
  ⟨by decide, by decide,
    c4_amended_idempotent_without_residue c4Good (by decide) (by decide)⟩

/-- `splitDelims` never returns an empty list of pieces. -/
theorem splitDelims_ne_nil : ∀ l : List Char, splitDelims l ≠ [] := by
  intro l
  cases l with
  | nil => simp [splitDelims]
  | cons c cs =>
    rw [splitDelims]
    by_cases hc : isDelim c
    · simp [hc]
    · simp only [hc, Bool.false_eq_true, if_false]
      cases splitDelims cs <;> simp

/-- `re.split` on a character class yields exactly one piece more than there
are delimiter occurrences. -/
theorem length_splitDelims :
    ∀ l : List Char, (splitDelims l).length = l.countP isDelim + 1 := by
  intro l
  induction l with
  | nil => simp [splitDelims]
  | cons c cs ih =>
    rw [splitDelims]
    by_cases hc : isDelim c
    · simp [hc, List.countP_cons, ih]
    · simp only [hc, Bool.false_eq_true, if_false]
      rcases hcs : splitDelims cs with _ | ⟨s, ss⟩
      · exact absurd hcs (splitDelims_ne_nil cs)
      · rw [hcs] at ih
        simp only [List.length_cons] at ih ⊢
        simp [List.countP_cons, hc, ← ih]

/-- Claim C6: the number of sentences is at most the number of `.`, `?`, `!`
occurrences in the normalised text plus one, with equality when no delimiter
is adjacent to another (in fact equality holds unconditionally, since
`re.split` keeps empty pieces). -/
theorem c6_sentence_count_bound (offset : Nat) (raw : List Char) :
    (list_of_list offset raw).length ≤
      (normalizedText offset raw).countP isDelim + 1 ∧
    (noAdjDelims (normalizedText offset raw) = true →
      (list_of_list offset raw).length =
        (normalizedText offset raw).countP isDelim + 1) := by
  have h : (list_of_list offset raw).length =
      (normalizedText offset raw).countP isDelim + 1 := by
    show ((splitDelims (normalizedText offset raw)).map cleanSentence).length =
      (normalizedText offset raw).countP isDelim + 1
    rw [List.length_map]
    exact length_splitDelims _
  exact ⟨le_of_eq h, fun _ => h⟩

/-- Witness for C6 at the concrete input `c6Input`, discharging the
no-adjacent-delimiters hypothesis of the equality part. -/
theorem c6_sentence_count_bound_witness :
    noAdjDelims (normalizedText 0 c6Input) = true ∧
    (list_of_list 0 c6Input).length =
      (normalizedText 0 c6Input).countP isDelim + 1 :=
  ⟨by decide, (c6_sentence_count_bound 0 c6Input).2 (by decide)⟩

/-- `Char.ofNat` on a valid codepoint round-trips through `toNat`. -/
theorem toNat_ofNat_of_valid (n : Nat) (h : n.isValidChar) :
    (Char.ofNat n).toNat = n := by
  rw [Char.ofNat, dif_pos h]
  rfl

/-- `Char.toLower` shifts ASCII uppercase letters up by 32. -/
theorem toLower_toNat_of_upper (c : Char)
    (h : 65 ≤ c.toNat ∧ c.toNat ≤ 90) :
    (Char.toLower c).toNat = c.toNat + 32 := by
  rw [Char.toLower, if_pos h]
  exact toNat_ofNat_of_valid _ (Or.inl (by omega))

/-- `Char.toLower` fixes every character that is not ASCII uppercase. -/
theorem toLower_eq_self_of_not_upper (c : Char)
    (h : ¬(65 ≤ c.toNat ∧ c.toNat ≤ 90)) :
    Char.toLower c = c := by
  rw [Char.toLower, if_neg h]

/-- Lowercasing never outputs an ASCII uppercase letter. -/
theorem isUpperAscii_toLower (c : Char) :
    isUpperAscii (Char.toLower c) = false := by
  by_cases h : 65 ≤ c.toNat ∧ c.toNat ≤ 90
  · have := toLower_toNat_of_upper c h
    simp only [isUpperAscii, this, decide_eq_false_iff_not]
    omega
  · rw [toLower_eq_self_of_not_upper c h]
    simp only [isUpperAscii, decide_eq_false_iff_not]
    exact h

/-- A character that is not in a list is not `contains`-detected. -/
theorem contains_eq_false_of_not_mem (l : List Char) (x : Char)
    (h : x ∉ l) : l.contains x = false := by
  rw [show l.contains x = l.elem x from rfl, List.elem_eq_mem]
  simp [h]

/-- Every character of `punctuation` lies outside the ASCII lowercase
range. -/
theorem punctuation_not_lower :
    ∀ p ∈ punctuation, p.toNat < 97 ∨ 122 < p.toNat := by
  decide

/-- Every character of `special` lies outside the ASCII lowercase range. -/
theorem special_not_lower :
    ∀ p ∈ special, p.toNat < 97 ∨ 122 < p.toNat := by
  decide

/-- Characters kept by the filter stay kept after lowercasing: lowercasing
maps into the ASCII lowercase range, which is disjoint from both removal
sets. -/
theorem keepChar_toLower (c : Char) (h : keepChar c = true) :
    keepChar (Char.toLower c) = true := by
  by_cases hu : 65 ≤ c.toNat ∧ c.toNat ≤ 90
  · have hlo := toLower_toNat_of_upper c hu
    have hp : Char.toLower c ∉ punctuation := by
      intro hm
      have := punctuation_not_lower _ hm
      omega
    have hs : Char.toLower c ∉ special := by
      intro hm
      have := special_not_lower _ hm
      omega
    simp only [keepChar, contains_eq_false_of_not_mem _ _ hp,
      contains_eq_false_of_not_mem _ _ hs, Bool.not_false, Bool.and_self]
  · rw [toLower_eq_self_of_not_upper c hu]
    exact h

/-- Characters of the pieces produced by the `splitWs` worker come from the
remaining input or from the accumulator. -/
theorem mem_of_mem_splitWsAux :
    ∀ (l acc t : List Char), t ∈ splitWsAux l acc →
      ∀ c ∈ t, c ∈ l ∨ c ∈ acc := by
  intro l
  induction l with
  | nil =>
    intro acc t ht c hc
    by_cases h : acc = []
    · rw [splitWsAux, if_pos h] at ht
      cases ht
    · rw [splitWsAux, if_neg h] at ht
      rcases List.mem_singleton.1 ht with rfl
      right
      exact (List.mem_reverse).1 hc
  | cons c0 cs ih =>
    intro acc t ht c hc
    rw [splitWsAux] at ht
    cases hs : isSpaceChar c0 with
    | true =>
      rw [hs, if_pos rfl] at ht
      by_cases h : acc = []
      · rw [if_pos h] at ht
        rcases ih [] t ht c hc with h1 | h1
        · exact Or.inl (List.mem_cons_of_mem _ h1)
        · cases h1
      · rw [if_neg h] at ht
        rcases List.mem_cons.1 ht with rfl | h1
        · right
          exact (List.mem_reverse).1 hc
        · rcases ih [] t h1 c hc with h2 | h2
          · exact Or.inl (List.mem_cons_of_mem _ h2)
          · cases h2
    | false =>
      rw [hs] at ht
      simp only [Bool.false_eq_true, if_false] at ht
      rcases ih (c0 :: acc) t ht c hc with h1 | h1
      · exact Or.inl (List.mem_cons_of_mem _ h1)
      · rcases List.mem_cons.1 h1 with rfl | h2
        · exact Or.inl (List.mem_cons_self _ _)
        · exact Or.inr h2

/-- Pieces produced by the `splitWs` worker are non-empty and free of
whitespace, provided the accumulator is. -/
theorem splitWsAux_tokens_sound :
    ∀ (l acc : List Char), (∀ c ∈ acc, isSpaceChar c = false) →
      ∀ t ∈ splitWsAux l acc, t ≠ [] ∧ ∀ c ∈ t, isSpaceChar c = false := by
  intro l
  induction l with
  | nil =>
    intro acc hacc t ht
    by_cases h : acc = []
    · rw [splitWsAux, if_pos h] at ht
      cases ht
    · rw [splitWsAux, if_neg h] at ht
      rcases List.mem_singleton.1 ht with rfl
      refine ⟨by simpa using h, fun c hc => hacc c ((List.mem_reverse).1 hc)⟩
  | cons c0 cs ih =>
    intro acc hacc t ht
    rw [splitWsAux] at ht
    cases hs : isSpaceChar c0 with
    | true =>
      rw [hs, if_pos rfl] at ht
      by_cases h : acc = []
      · rw [if_pos h] at ht
        exact ih [] (by simp) t ht
      · rw [if_neg h] at ht
        rcases List.mem_cons.1 ht with rfl | h1
        · refine ⟨by simpa using h, fun c hc => hacc c ((List.mem_reverse).1 hc)⟩
        · exact ih [] (by simp) t h1
    | false =>
      rw [hs] at ht
      simp only [Bool.false_eq_true, if_false] at ht
      refine ih (c0 :: acc) ?_ t ht
      intro c hc
      rcases List.mem_cons.1 hc with rfl | h1
      · exact hs
      · exact hacc c h1

/-- Characters surviving `pyStrip` come from the input. -/
theorem mem_of_mem_pyStrip (l : List Char) (c : Char)
    (h : c ∈ pyStrip l) : c ∈ l := by
  unfold pyStrip at h
  rw [List.mem_reverse] at h
  have h1 := (List.dropWhile_sublist (l := (l.dropWhile isSpaceChar).reverse)
    isSpaceChar).subset h
  rw [List.mem_reverse] at h1
  exact (List.dropWhile_sublist (l := l) isSpaceChar).subset h1

/-- Every sentence of the pipeline output is the cleaning of some raw
sentence piece. -/
theorem mem_list_of_list (offset : Nat) (raw : List Char)
    (sent : List (List Char)) (h : sent ∈ list_of_list offset raw) :
    ∃ s : List Char, sent = cleanSentence s := by
  rcases List.mem_map.1 h with ⟨s, -, rfl⟩
  exact ⟨s, rfl⟩

/-- Shape of every pipeline token: non-empty, whitespace-free, kept by the
character filter, and free of ASCII uppercase letters. -/
theorem token_shape (offset : Nat) (raw : List Char) :
    ∀ sent ∈ list_of_list offset raw, ∀ tok ∈ sent,
      tok ≠ [] ∧ ∀ c ∈ tok,
        isSpaceChar c = false ∧ keepChar c = true ∧ isUpperAscii c = false := by
  intro sent hsent tok htok
  rcases mem_list_of_list offset raw sent hsent with ⟨s, rfl⟩
  have hsound := splitWsAux_tokens_sound
    (pyStrip ((s.filter keepChar).map Char.toLower)) [] (by simp) tok htok
  refine ⟨hsound.1, ?_⟩
  intro c hc
  refine ⟨hsound.2 c hc, ?_⟩
  have hmem : c ∈ pyStrip ((s.filter keepChar).map Char.toLower) := by
    rcases mem_of_mem_splitWsAux _ [] tok htok c hc with h1 | h1
    · exact h1
    · cases h1
  have hmem2 := mem_of_mem_pyStrip _ _ hmem
  rcases List.mem_map.1 hmem2 with ⟨c0, hc0, rfl⟩
  have hkeep : keepChar c0 = true := (List.mem_filter.1 hc0).2
  exact ⟨keepChar_toLower c0 hkeep, isUpperAscii_toLower c0⟩

/-- Claim C3: for every input and offset, every token of every output
sentence is non-empty, lowercase, and free of the configured punctuation and
special characters. -/
theorem c3_token_invariants (offset : Nat) (raw : List Char) :
    ∀ sent ∈ list_of_list offset raw, ∀ tok ∈ sent,
      cleanToken tok = true := by
  intro sent hsent tok htok
  obtain ⟨hne, hc⟩ := token_shape offset raw sent hsent tok htok
  unfold cleanToken
  rw [Bool.and_eq_true]
  refine ⟨by simpa using hne, ?_⟩
  rw [List.all_eq_true]
  intro c hcm
  obtain ⟨-, hk, hu⟩ := hc c hcm
  unfold keepChar at hk
  rw [Bool.and_eq_true] at hk
  rw [Bool.and_eq_true, Bool.and_eq_true]
  exact ⟨⟨hk.1, hk.2⟩, by simp [hu]⟩

/-- Witness for C3 at a token of the end-to-end example. -/
theorem c3_token_invariants_witness :
    ["they".data, "talked".data] ∈ list_of_list 0 exampleRaw ∧
    "they".data ∈ ["they".data, "talked".data] ∧
    cleanToken "they".data = true :=
  ⟨by decide, by decide,
    c3_token_invariants 0 exampleRaw ["they".data, "talked".data] (by decide)
      "they".data (by decide)⟩

/-- The `splitWs` worker consumes a whitespace-free word into the
accumulator. -/
theorem splitWsAux_append_word :
    ∀ w : List Char, (∀ c ∈ w, isSpaceChar c = false) →
      ∀ rest acc : List Char,
        splitWsAux (w ++ rest) acc = splitWsAux rest (w.reverse ++ acc) := by
  intro w
  induction w with
  | nil =>
    intro _ rest acc
    simp
  | cons c w' ih =>
    intro hw rest acc
    have hc : isSpaceChar c = false := hw c (List.mem_cons_self _ _)
    simp only [List.cons_append, splitWsAux, hc, Bool.false_eq_true, if_false,
      List.append_eq]
    rw [ih (fun d hd => hw d (List.mem_cons_of_mem _ hd)) rest (c :: acc)]
    congr 1
    simp [List.reverse_cons, List.append_assoc]

/-- Joining non-empty whitespace-free tokens with single spaces and
re-splitting on whitespace recovers the tokens. -/
theorem splitWs_joinTokens :
    ∀ ts : List (List Char),
      (∀ t ∈ ts, t ≠ [] ∧ ∀ c ∈ t, isSpaceChar c = false) →
      splitWs (joinTokens ts) = ts := by
  intro ts
  induction ts with
  | nil => intro _; rfl
  | cons t ts' ih =>
    intro h
    obtain ⟨htne, htns⟩ := h t (List.mem_cons_self _ _)
    cases ts' with
    | nil =>
      show splitWsAux (joinTokens [t]) [] = [t]
      rw [show joinTokens [t] = t from rfl]
      have ha := splitWsAux_append_word t htns [] []
      rw [List.append_nil] at ha
      rw [ha, List.append_nil, splitWsAux,
        if_neg (by simpa using htne), List.reverse_reverse]
    | cons t2 ts'' =>
      show splitWsAux (joinTokens (t :: t2 :: ts'')) [] = t :: t2 :: ts''
      rw [show joinTokens (t :: t2 :: ts'') =
        t ++ ' ' :: joinTokens (t2 :: ts'') from rfl]
      rw [splitWsAux_append_word t htns (' ' :: joinTokens (t2 :: ts'')) []]
      rw [List.append_nil, splitWsAux,
        if_pos (show isSpaceChar ' ' = true from rfl),
        if_neg (by simpa using htne), List.reverse_reverse]
      congr 1
      exact ih (fun u hu => h u (List.mem_cons_of_mem _ hu))

/-- Claim C5: concatenating all tokens of all output sentences with
single-space separators and re-splitting on whitespace runs reproduces
exactly the same token sequence. -/
theorem c5_tokenization_roundtrip (offset : Nat) (raw : List Char) :
    splitWs (joinTokens (allTokens (list_of_list offset raw))) =
      allTokens (list_of_list offset raw) := by
  apply splitWs_joinTokens
  intro t ht
  rcases List.mem_flatten.1 ht with ⟨sent, hsent, htok⟩
  obtain ⟨hne, hprops⟩ := token_shape offset raw sent hsent t htok
  exact ⟨hne, fun c hc => (hprops c hc).1⟩

/-- Claim C8: looking up a token absent from the trained vocabulary yields
the explicit NotInVocabulary failure, and never an `ok` result (in
particular, never a zero or arbitrary vector). -/
theorem c8_not_in_vocabulary (m : EmbeddingModel) (t : List Char)
    (h : lookupTok t m.vocab = none) :
    vector_of m t = Except.error LookupError.NotInVocabulary ∧
    ∀ v : List ℚ, vector_of m t ≠ Except.ok v := by
  have h1 : vector_of m t = Except.error LookupError.NotInVocabulary := by
    unfold vector_of
    rw [h]
  refine ⟨h1, fun v hv => ?_⟩
  rw [h1] at hv
  cases hv

/-- Witness for C8 at the one-entry model `c8Model` and the absent token
`c8Tok`. -/
theorem c8_not_in_vocabulary_witness :
    lookupTok c8Tok c8Model.vocab = none ∧
    vector_of c8Model c8Tok = Except.error LookupError.NotInVocabulary :=
  ⟨rfl, (c8_not_in_vocabulary c8Model c8Tok rfl).1⟩
